import Mathlib

/-!
Verification of the medical-document blockchain contracts
(PatientManagement, DoctorManagement, HealthcareAudit) against their
natural-language specification.

The contracts are embedded shallowly: Solidity mappings become Lean
functions with the mapping's default value, dynamic arrays become lists,
`msg.sender` and `block.timestamp` become explicit parameters, and each
state-changing function is modelled in "sequential" form
`State → Option Err × State`, threading the state through the function
body in source order so that the state returned alongside an error is
exactly the state at the point the corresponding `require` (or array
bounds panic) fires.  The EVM's revert-on-error semantics is a separate
wrapper (`DMOp.apply`, `PMOp.apply`).
-/

abbrev Address := Nat

/-- Errors raised by the contracts' `require` statements, plus the
array-bounds panic Solidity raises on an out-of-range index write. -/
inductive Err where
  | onlyAdmin
  | patientAlreadyRegistered
  | patientNotRegistered
  | doctorAlreadyRegistered
  | doctorNotRegistered
  | accessAlreadyGranted
  | accessNotGranted
  | onlyPatientCanRevoke
  | indexOutOfBounds
deriving DecidableEq, Repr

/-- Pointwise update of a mapping, the semantics of a Solidity mapping
assignment `m[k] = v`. -/
def upd {α β : Type} [DecidableEq α] (m : α → β) (k : α) (v : β) : α → β :=
  fun a => if a = k then v else m a

/-- Update of a nested mapping `m[k1][k2] = v`. -/
def upd2 {α β γ : Type} [DecidableEq α] [DecidableEq β]
    (m : α → β → γ) (k1 : α) (k2 : β) (v : γ) : α → β → γ :=
  fun a b => if a = k1 ∧ b = k2 then v else m a b

/-! ## PatientManagement -/

structure MedicalRecord where
  ipfsHash : String
  fileType : String
  fileName : String
  title : String
  resume : String
  timestamp : Nat
  doctor : Address
  isActive : Bool
  previousVersion : String
deriving DecidableEq, Repr

structure Patient where
  username : String
  role : String
  isRegistered : Bool
deriving DecidableEq, Repr

/-- Storage of the PatientManagement contract.  `recordIndexes` is the
single global mapping from IPFS hash to array index used by
`addMedicalRecord`; a Solidity mapping yields `0` for absent keys. -/
structure PMState where
  admin : Address
  patients : Address → Patient
  patientRecords : Address → List MedicalRecord
  recordIndexes : String → Nat

/-- PatientManagement constructor: the deployer is the admin and is
pre-registered as a patient named "admin" with role "admin". -/
def pmInit (deployer : Address) : PMState where
  admin := deployer
  patients := upd (fun _ => ⟨"", "", false⟩) deployer ⟨"admin", "admin", true⟩
  patientRecords := fun _ => []
  recordIndexes := fun _ => 0

def registerPatientSeq (sender p : Address) (username role : String)
    (s : PMState) : Option Err × PMState :=
  if sender ≠ s.admin then (some .onlyAdmin, s)
  else if (s.patients p).isRegistered then (some .patientAlreadyRegistered, s)
  else (none, { s with patients := upd s.patients p ⟨username, role, true⟩ })

def getPatient (s : PMState) (p : Address) : Except Err (String × String) :=
  if (s.patients p).isRegistered then
    .ok ((s.patients p).username, (s.patients p).role)
  else .error .patientNotRegistered

/-- The `if (bytes(_previousVersion).length > 0)` branch of
`addMedicalRecord`: read the global index for the previous hash and
clear `isActive` on the record at that index of this patient's array.
An out-of-range index is a Solidity bounds panic. -/
def deactivatePrev (p : Address) (prev : String) (s : PMState) :
    Option Err × PMState :=
  let oldIndex := s.recordIndexes prev
  match (s.patientRecords p)[oldIndex]? with
  | some r =>
      let recs := (s.patientRecords p).set oldIndex { r with isActive := false }
      (none, { s with patientRecords := upd s.patientRecords p recs })
  | none => (some .indexOutOfBounds, s)

/-- The tail of `addMedicalRecord`: push the new (active) record and
point the global index at its position. -/
def pushRecord (sender : Address) (now : Nat) (p : Address)
    (hash fileType fileName title resume prev : String) (s : PMState) : PMState :=
  let recs := s.patientRecords p ++
    [⟨hash, fileType, fileName, title, resume, now, sender, true, prev⟩]
  { s with patientRecords := upd s.patientRecords p recs,
           recordIndexes := upd s.recordIndexes hash (recs.length - 1) }

def addMedicalRecordSeq (sender : Address) (now : Nat) (p : Address)
    (hash fileType fileName title resume prev : String) (s : PMState) :
    Option Err × PMState :=
  if (s.patients p).isRegistered = false then (some .patientNotRegistered, s)
  else
    match (if 0 < prev.length then deactivatePrev p prev s else (none, s)) with
    | (some e, s1) => (some e, s1)
    | (none, s1) =>
        (none, pushRecord sender now p hash fileType fileName title resume prev s1)

def getMedicalRecords (s : PMState) (p : Address) :
    Except Err (List MedicalRecord) :=
  if (s.patients p).isRegistered then .ok (s.patientRecords p)
  else .error .patientNotRegistered

/-- First pass of `getActiveRecords`: count the active records (the size
of the memory array the contract allocates). -/
def countActive : List MedicalRecord → Nat
  | [] => 0
  | r :: rs => (if r.isActive then 1 else 0) + countActive rs

/-- Second pass of `getActiveRecords`: copy the active records, in
array order. -/
def collectActive : List MedicalRecord → List MedicalRecord
  | [] => []
  | r :: rs => if r.isActive then r :: collectActive rs else collectActive rs

def getActiveRecords (s : PMState) (p : Address) :
    Except Err (List MedicalRecord) :=
  if (s.patients p).isRegistered then .ok (collectActive (s.patientRecords p))
  else .error .patientNotRegistered

/-- Transactions against PatientManagement (state-changing entry points
with their `msg.sender`, and `block.timestamp` for `addMedicalRecord`). -/
inductive PMOp where
  | register (sender p : Address) (username role : String)
  | addRecord (sender : Address) (now : Nat) (p : Address)
      (hash fileType fileName title resume prev : String)

/-- One transaction with EVM semantics: a reverted call leaves the
state unchanged. -/
def PMOp.apply (op : PMOp) (s : PMState) : PMState :=
  match op with
  | .register sender p u r =>
      match registerPatientSeq sender p u r s with
      | (some _, _) => s
      | (none, s1) => s1
  | .addRecord sender now p h ft fn t rsm prev =>
      match addMedicalRecordSeq sender now p h ft fn t rsm prev s with
      | (some _, _) => s
      | (none, s1) => s1

def pmExec (s : PMState) : List PMOp → PMState
  | [] => s
  | op :: ops => pmExec (op.apply s) ops

/-! ## DoctorManagement -/

structure Doctor where
  username : String
  role : String
  isRegistered : Bool
deriving DecidableEq, Repr

structure DMState where
  admin : Address
  doctors : Address → Doctor
  doctorAddresses : List Address
  doctorPatients : Address → List Address
  doctorPatientAccess : Address → Address → Bool

/-- DoctorManagement constructor: the deployer is the admin and is
pre-registered as a doctor named "admin" with role "admin". -/
def dmInit (deployer : Address) : DMState where
  admin := deployer
  doctors := upd (fun _ => ⟨"", "", false⟩) deployer ⟨"admin", "admin", true⟩
  doctorAddresses := [deployer]
  doctorPatients := fun _ => []
  doctorPatientAccess := fun _ _ => false

def registerDoctorSeq (sender d : Address) (username role : String)
    (s : DMState) : Option Err × DMState :=
  if sender ≠ s.admin then (some .onlyAdmin, s)
  else if (s.doctors d).isRegistered then (some .doctorAlreadyRegistered, s)
  else (none, { s with doctors := upd s.doctors d ⟨username, role, true⟩,
                       doctorAddresses := s.doctorAddresses ++ [d] })

/-- The source `addPatientAccess` ignores `msg.sender` entirely. -/
def addPatientAccessSeq (d p : Address) (s : DMState) : Option Err × DMState :=
  if (s.doctors d).isRegistered = false then (some .doctorNotRegistered, s)
  else if s.doctorPatientAccess d p then (some .accessAlreadyGranted, s)
  else (none, { s with
    doctorPatients := upd s.doctorPatients d (s.doctorPatients d ++ [p]),
    doctorPatientAccess := upd2 s.doctorPatientAccess d p true })

/-- Index of the first occurrence of `p`, the search performed by the
removal loop in `revokePatientAccess`. -/
def firstIdx {α : Type} [DecidableEq α] (l : List α) (p : α) : Option Nat :=
  match l with
  | [] => none
  | a :: rest => if a = p then some 0 else (firstIdx rest p).map (· + 1)

/-- Swap-with-last-and-pop removal: overwrite the first occurrence of
`p` with the array's last element and pop the last element. -/
def removeBySwap {α : Type} [DecidableEq α] (l : List α) (p : α) : List α :=
  match firstIdx l p, l.getLast? with
  | some i, some last => (l.set i last).dropLast
  | _, _ => l

def revokePatientAccessSeq (sender d p : Address) (s : DMState) :
    Option Err × DMState :=
  if (s.doctors d).isRegistered = false then (some .doctorNotRegistered, s)
  else if s.doctorPatientAccess d p = false then (some .accessNotGranted, s)
  else if sender ≠ p then (some .onlyPatientCanRevoke, s)
  else (none, { s with
    doctorPatientAccess := upd2 s.doctorPatientAccess d p false,
    doctorPatients := upd s.doctorPatients d (removeBySwap (s.doctorPatients d) p) })

def getDoctor (s : DMState) (d : Address) : Except Err (String × String) :=
  if (s.doctors d).isRegistered then
    .ok ((s.doctors d).username, (s.doctors d).role)
  else .error .doctorNotRegistered

def getAuthorizedPatients (s : DMState) (d : Address) : List Address :=
  s.doctorPatients d

def isAuthorized (s : DMState) (d p : Address) : Bool :=
  s.doctorPatientAccess d p

def getAllDoctors (s : DMState) : List Address :=
  s.doctorAddresses

/-- Transactions against DoctorManagement. -/
inductive DMOp where
  | register (sender d : Address) (username role : String)
  | grant (d p : Address)
  | revoke (sender d p : Address)

def DMOp.apply (op : DMOp) (s : DMState) : DMState :=
  match op with
  | .register sender d u r =>
      match registerDoctorSeq sender d u r s with
      | (some _, _) => s
      | (none, s1) => s1
  | .grant d p =>
      match addPatientAccessSeq d p s with
      | (some _, _) => s
      | (none, s1) => s1
  | .revoke sender d p =>
      match revokePatientAccessSeq sender d p s with
      | (some _, _) => s
      | (none, s1) => s1

def dmExec (s : DMState) : List DMOp → DMState
  | [] => s
  | op :: ops => dmExec (op.apply s) ops

/-! ## HealthcareAudit -/

structure AuditRecord where
  actor : Address
  actionType : String
  subject : Address
  details : String
  timestamp : Nat
deriving DecidableEq, Repr

structure AuditState where
  admin : Address
  auditTrail : List AuditRecord

def auditInit (deployer : Address) : AuditState where
  admin := deployer
  auditTrail := []

/-- The source `addAuditLog` has no `require`: it always succeeds. -/
def addAuditLogSeq (now : Nat) (actor : Address) (actionType : String)
    (subject : Address) (details : String) (s : AuditState) :
    Option Err × AuditState :=
  (none, { s with auditTrail :=
    s.auditTrail ++ [⟨actor, actionType, subject, details, now⟩] })

def getAuditTrail (s : AuditState) : List AuditRecord :=
  s.auditTrail

/-- Counting pass of `getAuditTrailByActor`. -/
def countByActor : List AuditRecord → Address → Nat
  | [], _ => 0
  | r :: rs, a => (if r.actor = a then 1 else 0) + countByActor rs a

/-- Copying pass of `getAuditTrailByActor`. -/
def collectByActor : List AuditRecord → Address → List AuditRecord
  | [], _ => []
  | r :: rs, a =>
      if r.actor = a then r :: collectByActor rs a else collectByActor rs a

def getAuditTrailByActor (s : AuditState) (a : Address) : List AuditRecord :=
  collectByActor s.auditTrail a

def countBySubject : List AuditRecord → Address → Nat
  | [], _ => 0
  | r :: rs, b => (if r.subject = b then 1 else 0) + countBySubject rs b

def collectBySubject : List AuditRecord → Address → List AuditRecord
  | [], _ => []
  | r :: rs, b =>
      if r.subject = b then r :: collectBySubject rs b else collectBySubject rs b

def getAuditTrailBySubject (s : AuditState) (b : Address) : List AuditRecord :=
  collectBySubject s.auditTrail b

/-- One `addAuditLog` call, described by its timestamp and arguments. -/
structure AuditCall where
  now : Nat
  actor : Address
  actionType : String
  subject : Address
  details : String

def auditExec (s : AuditState) : List AuditCall → AuditState
  | [] => s
  | c :: cs => auditExec (addAuditLogSeq c.now c.actor c.actionType c.subject c.details s).2 cs

/-- The access-graph invariant: every grant list is duplicate-free, and
the `doctorPatientAccess` flag agrees with grant-list membership. -/
def DMInv (s : DMState) : Prop :=
  ∀ d, (s.doctorPatients d).Nodup ∧
    ∀ p, (s.doctorPatientAccess d p = true ↔ p ∈ s.doctorPatients d)

/-- Transaction script: two patients are registered; doctor 3 stores a
record with hash "h" for patient 1 and a record with hash "x" for
patient 2, then submits a new version for patient 2 whose
`previousVersion` is "h" — a hash that belongs to patient 1's list. -/
def c1Script : List PMOp :=
  [ .register 0 1 "P" "patient"
  , .register 0 2 "Q" "patient"
  , .addRecord 3 10 1 "h" "pdf" "f" "t" "r" ""
  , .addRecord 3 11 2 "x" "pdf" "f" "t" "r" ""
  , .addRecord 3 12 2 "g" "pdf" "f" "t" "r" "h" ]

/-- Transaction script: patient 1 is registered and holds one record
with hash "h0"; no record with hash "missing" exists anywhere. -/
def c2Setup : List PMOp :=
  [ .register 0 1 "P" "patient"
  , .addRecord 3 10 1 "h0" "pdf" "f" "t" "r" "" ]

/-! ## Properties of the swap-and-pop removal -/

theorem firstIdx_eq_none_iff {α : Type} [DecidableEq α] :
    ∀ (l : List α) (p : α), firstIdx l p = none ↔ p ∉ l
  | [], p => by simp [firstIdx]
  | a :: rest, p => by
      by_cases h : a = p
      · subst h; simp [firstIdx]
      · have ih := firstIdx_eq_none_iff rest p
        simp only [firstIdx, if_neg h, Option.map_eq_none', ih, List.mem_cons]
        constructor
        · intro hnr hor
          rcases hor with h1 | h2
          · exact h h1.symm
          · exact hnr h2
        · intro hno h2
          exact hno (Or.inr h2)

theorem firstIdx_spec {α : Type} [DecidableEq α] :
    ∀ (l : List α) (p : α) (i : Nat), firstIdx l p = some i →
      ∃ h : i < l.length, l[i] = p ∧ p ∉ l.take i
  | [], p, i => by simp [firstIdx]
  | a :: rest, p, i => by
      by_cases h : a = p
      · subst h
        intro hfi
        simp [firstIdx] at hfi
        subst hfi
        exact ⟨by simp, by simp, by simp⟩
      · intro hfi
        simp only [firstIdx, if_neg h, Option.map_eq_some'] at hfi
        obtain ⟨j, hj, rfl⟩ := hfi
        obtain ⟨hlt, hget, htake⟩ := firstIdx_spec rest p j hj
        refine ⟨by simpa using Nat.succ_lt_succ hlt, ?_, ?_⟩
        · simpa using hget
        · intro hmem
          rw [List.take_succ_cons] at hmem
          rcases List.mem_cons.1 hmem with h1 | h2
          · exact h h1.symm
          · exact htake h2

theorem removeBySwap_of_not_mem {α : Type} [DecidableEq α] {l : List α} {p : α}
    (h : p ∉ l) : removeBySwap l p = l := by
  have hn : firstIdx l p = none := (firstIdx_eq_none_iff l p).2 h
  unfold removeBySwap
  rw [hn]

theorem removeBySwap_perm {α : Type} [DecidableEq α] {l : List α} {p : α}
    (hnd : l.Nodup) (hp : p ∈ l) : (removeBySwap l p).Perm (l.erase p) := by
  cases hfi : firstIdx l p with
  | none => exact absurd hp ((firstIdx_eq_none_iff l p).1 hfi)
  | some i =>
    cases hlast : l.getLast? with
    | none =>
        rw [List.getLast?_eq_none_iff] at hlast
        subst hlast; simp at hp
    | some last =>
        have hrw : removeBySwap l p = (l.set i last).dropLast := by
          unfold removeBySwap; rw [hfi, hlast]
        rw [hrw]
        obtain ⟨hi, hget, htake⟩ := firstIdx_spec l p i hfi
        have hget? : l[i]? = some p := List.getElem?_eq_some_iff.2 ⟨hi, hget⟩
        have hdec : l.dropLast ++ [last] = l := List.dropLast_append_getLast? last hlast
        set m := l.dropLast with hm
        have hlen : l.length = m.length + 1 := by
          conv_lhs => rw [← hdec]
          simp
        rw [← hdec] at hget? htake hnd ⊢
        have hmnd : m.Nodup := (List.nodup_append.1 hnd).1
        have hlnm : last ∉ m := by
          have hdisj := (List.nodup_append.1 hnd).2.2
          intro hmem
          exact hdisj hmem (List.mem_singleton.2 rfl)
        by_cases hip : i = m.length
        · subst hip
          have h1 : (m ++ [last])[m.length]? = some last :=
            List.getElem?_eq_some_iff.2
              ⟨by simp, List.getElem_concat_length m last m.length rfl _⟩
          have hpl : p = last := by
            have h2 := hget?.symm.trans h1
            exact Option.some.injEq p last ▸ h2
          subst hpl
          have hset : (m ++ [p]).set m.length p = m ++ [p] := by
            rw [List.set_append, if_neg (by omega)]
            simp
          rw [hset, List.dropLast_concat,
              List.erase_append_right _ hlnm, List.erase_cons_head]
          simp
        · have him : i < m.length := by
            have hi2 := hi
            rw [hlen] at hi2
            omega
          obtain ⟨hlt2, hgeteq⟩ := List.getElem?_eq_some_iff.1 hget?
          have hgetm : m[i] = p := by
            rw [List.getElem_append_left him] at hgeteq
            exact hgeteq
          have hpm : p ∈ m := hgetm ▸ List.getElem_mem him
          have htakem : p ∉ m.take i := by
            rw [List.take_append_eq_append_take, Nat.sub_eq_zero_of_le (by omega),
                List.take_zero, List.append_nil] at htake
            exact htake
          have hset : (m ++ [last]).set i last = m.set i last ++ [last] := by
            rw [List.set_append, if_pos him]
          rw [hset, List.dropLast_concat]
          have hsetm : m.set i last = m.take i ++ last :: m.drop (i + 1) := by
            rw [List.set_eq_take_append_cons_drop, if_pos him]
          have hmdec : m.take i ++ p :: m.drop (i + 1) = m := by
            conv_rhs => rw [← List.take_append_drop i m]
            rw [List.drop_eq_getElem_cons him, hgetm]
          have herasem : m.erase p = m.take i ++ m.drop (i + 1) := by
            conv_lhs => rw [← hmdec]
            rw [List.erase_append_right _ htakem, List.erase_cons_head]
          rw [List.erase_append_left _ hpm, herasem, hsetm, List.append_assoc]
          exact List.Perm.append_left _ ((List.perm_append_singleton _ _).symm)

theorem mem_removeBySwap {α : Type} [DecidableEq α] {l : List α} {p q : α}
    (hnd : l.Nodup) : q ∈ removeBySwap l p ↔ q ∈ l ∧ q ≠ p := by
  by_cases hp : p ∈ l
  · rw [(removeBySwap_perm hnd hp).mem_iff, hnd.mem_erase_iff, and_comm]
  · rw [removeBySwap_of_not_mem hp]
    exact ⟨fun h => ⟨h, fun hq => hp (hq ▸ h)⟩, fun h => h.1⟩

theorem nodup_removeBySwap {α : Type} [DecidableEq α] {l : List α} {p : α}
    (hnd : l.Nodup) : (removeBySwap l p).Nodup := by
  by_cases hp : p ∈ l
  · exact (removeBySwap_perm hnd hp).symm.nodup (List.Nodup.erase p hnd)
  · rw [removeBySwap_of_not_mem hp]; exact hnd

/-! ## Invariants of DoctorManagement -/

theorem dmInit_inv (deployer : Address) : DMInv (dmInit deployer) := by
  intro d
  refine ⟨by simp [dmInit], fun p => by simp [dmInit]⟩

theorem dmApply_inv {s : DMState} (op : DMOp) (h : DMInv s) : DMInv (op.apply s) := by
  cases op with
  | register sender d u r =>
      show DMInv (match registerDoctorSeq sender d u r s with
        | (some _, _) => s | (none, s1) => s1)
      unfold registerDoctorSeq
      by_cases h1 : sender ≠ s.admin
      · rw [if_pos h1]; exact h
      · rw [if_neg h1]
        by_cases h2 : (s.doctors d).isRegistered
        · rw [if_pos h2]; exact h
        · rw [if_neg h2]
          intro d'
          exact ⟨(h d').1, (h d').2⟩
  | grant d p =>
      show DMInv (match addPatientAccessSeq d p s with
        | (some _, _) => s | (none, s1) => s1)
      unfold addPatientAccessSeq
      by_cases h1 : (s.doctors d).isRegistered = false
      · rw [if_pos h1]; exact h
      · rw [if_neg h1]
        by_cases h2 : s.doctorPatientAccess d p
        · rw [if_pos h2]; exact h
        · rw [if_neg h2]
          have hnp : p ∉ s.doctorPatients d := by
            intro hmem
            exact h2 (((h d).2 p).2 hmem)
          intro d'
          by_cases hd : d' = d
          · constructor
            · simp only [upd, hd, if_pos rfl]
              simp [List.nodup_append, (h d).1, hnp]
            · intro p'
              by_cases hp : p' = p
              · simp [upd, upd2, hd, hp]
              · simp only [upd, upd2, hd, hp, and_false, if_false, eq_self_iff_true,
                  if_true, List.mem_append, List.mem_singleton, or_false]
                exact (h d).2 p'
          · constructor
            · simp only [upd, if_neg hd]
              exact (h d').1
            · intro p'
              simp only [upd, upd2, hd, false_and, if_false, if_neg hd]
              exact (h d').2 p'
  | revoke sender d p =>
      show DMInv (match revokePatientAccessSeq sender d p s with
        | (some _, _) => s | (none, s1) => s1)
      unfold revokePatientAccessSeq
      by_cases h1 : (s.doctors d).isRegistered = false
      · rw [if_pos h1]; exact h
      · rw [if_neg h1]
        by_cases h2 : s.doctorPatientAccess d p = false
        · rw [if_pos h2]; exact h
        · rw [if_neg h2]
          by_cases h3 : sender ≠ p
          · rw [if_pos h3]; exact h
          · rw [if_neg h3]
            intro d'
            by_cases hd : d' = d
            · constructor
              · simp only [upd, hd, if_pos rfl]
                exact nodup_removeBySwap (h d).1
              · intro p'
                by_cases hp : p' = p
                · simp [upd, upd2, hd, hp, mem_removeBySwap (h d).1]
                · simp only [upd, upd2, hd, hp, and_false, if_false, eq_self_iff_true,
                    if_true, mem_removeBySwap (h d).1, ne_eq, not_false_eq_true, and_true]
                  exact (h d).2 p'
            · constructor
              · simp only [upd, if_neg hd]
                exact (h d').1
              · intro p'
                simp only [upd, upd2, hd, false_and, if_false, if_neg hd]
                exact (h d').2 p'

theorem dmExec_inv_aux (ops : List DMOp) :
    ∀ s : DMState, DMInv s → DMInv (dmExec s ops) := by
  induction ops with
  | nil => intro s h; exact h
  | cons op rest ih =>
      intro s h
      exact ih (op.apply s) (dmApply_inv op h)

theorem dmExec_inv (deployer : Address) (ops : List DMOp) :
    DMInv (dmExec (dmInit deployer) ops) :=
  dmExec_inv_aux ops _ (dmInit_inv deployer)

/-! ## Persistence lemmas -/

theorem registerDoctorSeq_admin (sender d : Address) (u r : String) (s : DMState) :
    ((registerDoctorSeq sender d u r s).2).admin = s.admin := by
  unfold registerDoctorSeq
  split
  · rfl
  · split <;> rfl

theorem addPatientAccessSeq_doctors (d p : Address) (s : DMState) :
    ((addPatientAccessSeq d p s).2).doctors = s.doctors ∧
      ((addPatientAccessSeq d p s).2).admin = s.admin := by
  unfold addPatientAccessSeq
  split
  · exact ⟨rfl, rfl⟩
  · split <;> exact ⟨rfl, rfl⟩

theorem revokePatientAccessSeq_doctors (sender d p : Address) (s : DMState) :
    ((revokePatientAccessSeq sender d p s).2).doctors = s.doctors ∧
      ((revokePatientAccessSeq sender d p s).2).admin = s.admin := by
  unfold revokePatientAccessSeq
  split
  · exact ⟨rfl, rfl⟩
  · split
    · exact ⟨rfl, rfl⟩
    · split <;> exact ⟨rfl, rfl⟩

theorem registerDoctorSeq_doctors_persist (sender d : Address) (u r : String)
    (s : DMState) (a : Address) (ha : (s.doctors a).isRegistered = true) :
    ((registerDoctorSeq sender d u r s).2).doctors a = s.doctors a := by
  unfold registerDoctorSeq
  split
  · rfl
  · split
    · rfl
    · next h2 =>
        simp only [upd]
        rw [if_neg]
        intro had
        rw [had] at ha
        exact h2 ha

theorem dmApply_admin (op : DMOp) (s : DMState) : (op.apply s).admin = s.admin := by
  cases op with
  | register sender d u r =>
      show (match registerDoctorSeq sender d u r s with
        | (some _, _) => s | (none, s1) => s1).admin = s.admin
      have hs := registerDoctorSeq_admin sender d u r s
      rcases hres : registerDoctorSeq sender d u r s with ⟨e, s1⟩
      rw [hres] at hs
      cases e
      · exact hs
      · rfl
  | grant d p =>
      show (match addPatientAccessSeq d p s with
        | (some _, _) => s | (none, s1) => s1).admin = s.admin
      have hs := (addPatientAccessSeq_doctors d p s).2
      rcases hres : addPatientAccessSeq d p s with ⟨e, s1⟩
      rw [hres] at hs
      cases e
      · exact hs
      · rfl
  | revoke sender d p =>
      show (match revokePatientAccessSeq sender d p s with
        | (some _, _) => s | (none, s1) => s1).admin = s.admin
      have hs := (revokePatientAccessSeq_doctors sender d p s).2
      rcases hres : revokePatientAccessSeq sender d p s with ⟨e, s1⟩
      rw [hres] at hs
      cases e
      · exact hs
      · rfl

theorem dmApply_doctors_persist (op : DMOp) (s : DMState) (a : Address)
    (ha : (s.doctors a).isRegistered = true) :
    (op.apply s).doctors a = s.doctors a := by
  cases op with
  | register sender d u r =>
      show (match registerDoctorSeq sender d u r s with
        | (some _, _) => s | (none, s1) => s1).doctors a = s.doctors a
      have hs := registerDoctorSeq_doctors_persist sender d u r s a ha
      rcases hres : registerDoctorSeq sender d u r s with ⟨e, s1⟩
      rw [hres] at hs
      cases e
      · exact hs
      · rfl
  | grant d p =>
      show (match addPatientAccessSeq d p s with
        | (some _, _) => s | (none, s1) => s1).doctors a = s.doctors a
      have hs := (addPatientAccessSeq_doctors d p s).1
      rcases hres : addPatientAccessSeq d p s with ⟨e, s1⟩
      rw [hres] at hs
      cases e
      · rw [hs]
      · rfl
  | revoke sender d p =>
      show (match revokePatientAccessSeq sender d p s with
        | (some _, _) => s | (none, s1) => s1).doctors a = s.doctors a
      have hs := (revokePatientAccessSeq_doctors sender d p s).1
      rcases hres : revokePatientAccessSeq sender d p s with ⟨e, s1⟩
      rw [hres] at hs
      cases e
      · rw [hs]
      · rfl

theorem dmExec_admin (ops : List DMOp) :
    ∀ s : DMState, (dmExec s ops).admin = s.admin := by
  induction ops with
  | nil => intro s; rfl
  | cons op rest ih =>
      intro s
      rw [dmExec, ih (op.apply s), dmApply_admin]

theorem dmExec_doctors_persist (ops : List DMOp) :
    ∀ (s : DMState) (a : Address), (s.doctors a).isRegistered = true →
      (dmExec s ops).doctors a = s.doctors a := by
  induction ops with
  | nil => intro s a _; rfl
  | cons op rest ih =>
      intro s a ha
      have hstep := dmApply_doctors_persist op s a ha
      have ha2 : ((op.apply s).doctors a).isRegistered = true := by
        rw [hstep]; exact ha
      rw [dmExec, ih (op.apply s) a ha2, hstep]

theorem registerPatientSeq_admin (sender p : Address) (u r : String) (s : PMState) :
    ((registerPatientSeq sender p u r s).2).admin = s.admin := by
  unfold registerPatientSeq
  split
  · rfl
  · split <;> rfl

theorem registerPatientSeq_patients_persist (sender p : Address) (u r : String)
    (s : PMState) (a : Address) (ha : (s.patients a).isRegistered = true) :
    ((registerPatientSeq sender p u r s).2).patients a = s.patients a := by
  unfold registerPatientSeq
  split
  · rfl
  · split
    · rfl
    · next h2 =>
        simp only [upd]
        rw [if_neg]
        intro hap
        rw [hap] at ha
        exact h2 ha

theorem deactivatePrev_fields (p : Address) (prev : String) (s : PMState) :
    ((deactivatePrev p prev s).2).patients = s.patients ∧
      ((deactivatePrev p prev s).2).admin = s.admin ∧
      ((deactivatePrev p prev s).2).recordIndexes = s.recordIndexes := by
  cases hres : (s.patientRecords p)[s.recordIndexes prev]? with
  | some r => simp [deactivatePrev, hres]
  | none => simp [deactivatePrev, hres]

theorem addMedicalRecordSeq_patients (sender : Address) (now : Nat) (p : Address)
    (hash ft fn t rsm prev : String) (s : PMState) :
    ((addMedicalRecordSeq sender now p hash ft fn t rsm prev s).2).patients = s.patients ∧
      ((addMedicalRecordSeq sender now p hash ft fn t rsm prev s).2).admin = s.admin := by
  unfold addMedicalRecordSeq
  split
  · exact ⟨rfl, rfl⟩
  · have hd := deactivatePrev_fields p prev s
    rcases hcase : (if 0 < prev.length then deactivatePrev p prev s else (none, s)) with ⟨e, s1⟩
    have hs1 : s1.patients = s.patients ∧ s1.admin = s.admin := by
      by_cases hl : 0 < prev.length
      · rw [if_pos hl] at hcase
        have h2 : (deactivatePrev p prev s).2 = s1 := congrArg Prod.snd hcase
        rw [← h2]
        exact ⟨hd.1, hd.2.1⟩
      · rw [if_neg hl] at hcase
        have h2 : s = s1 := congrArg Prod.snd hcase
        rw [← h2]
        exact ⟨rfl, rfl⟩
    cases e
    · exact ⟨hs1.1, hs1.2⟩
    · exact ⟨hs1.1, hs1.2⟩

theorem pmApply_admin (op : PMOp) (s : PMState) : (op.apply s).admin = s.admin := by
  cases op with
  | register sender p u r =>
      show (match registerPatientSeq sender p u r s with
        | (some _, _) => s | (none, s1) => s1).admin = s.admin
      have hs := registerPatientSeq_admin sender p u r s
      rcases hres : registerPatientSeq sender p u r s with ⟨e, s1⟩
      rw [hres] at hs
      cases e
      · exact hs
      · rfl
  | addRecord sender now p h ft fn t rsm prev =>
      show (match addMedicalRecordSeq sender now p h ft fn t rsm prev s with
        | (some _, _) => s | (none, s1) => s1).admin = s.admin
      have hs := (addMedicalRecordSeq_patients sender now p h ft fn t rsm prev s).2
      rcases hres : addMedicalRecordSeq sender now p h ft fn t rsm prev s with ⟨e, s1⟩
      rw [hres] at hs
      cases e
      · exact hs
      · rfl

theorem pmApply_patients_persist (op : PMOp) (s : PMState) (a : Address)
    (ha : (s.patients a).isRegistered = true) :
    (op.apply s).patients a = s.patients a := by
  cases op with
  | register sender p u r =>
      show (match registerPatientSeq sender p u r s with
        | (some _, _) => s | (none, s1) => s1).patients a = s.patients a
      have hs := registerPatientSeq_patients_persist sender p u r s a ha
      rcases hres : registerPatientSeq sender p u r s with ⟨e, s1⟩
      rw [hres] at hs
      cases e
      · exact hs
      · rfl
  | addRecord sender now p h ft fn t rsm prev =>
      show (match addMedicalRecordSeq sender now p h ft fn t rsm prev s with
        | (some _, _) => s | (none, s1) => s1).patients a = s.patients a
      have hs := (addMedicalRecordSeq_patients sender now p h ft fn t rsm prev s).1
      rcases hres : addMedicalRecordSeq sender now p h ft fn t rsm prev s with ⟨e, s1⟩
      rw [hres] at hs
      cases e
      · rw [hs]
      · rfl

theorem pmExec_admin (ops : List PMOp) :
    ∀ s : PMState, (pmExec s ops).admin = s.admin := by
  induction ops with
  | nil => intro s; rfl
  | cons op rest ih =>
      intro s
      rw [pmExec, ih (op.apply s), pmApply_admin]

theorem pmExec_patients_persist (ops : List PMOp) :
    ∀ (s : PMState) (a : Address), (s.patients a).isRegistered = true →
      (pmExec s ops).patients a = s.patients a := by
  induction ops with
  | nil => intro s a _; rfl
  | cons op rest ih =>
      intro s a ha
      have hstep := pmApply_patients_persist op s a ha
      have ha2 : ((op.apply s).patients a).isRegistered = true := by
        rw [hstep]; exact ha
      rw [pmExec, ih (op.apply s) a ha2, hstep]

/-! ## Claim C1 -/

/-- Claim C1 (violation witness): after `c1Script`, patient 2's record
"g" is active and points via `previousVersion` to hash "h", while the
record with hash "h" in patient 1's list is itself still active — a
version chain with two active members, contradicting the claimed
"at most one member of any version chain has active == true" invariant.
The cause is the global (not per-patient) `recordIndexes` lookup, which
resolved patient 1's hash "h" to index 0 of patient 2's array and so
deactivated the unrelated record "x". -/
theorem c1_two_active_in_one_chain :
    ∃ ra, ra ∈ (pmExec (pmInit 0) c1Script).patientRecords 2 ∧
      ∃ rb, rb ∈ (pmExec (pmInit 0) c1Script).patientRecords 1 ∧
        ra.isActive = true ∧ rb.isActive = true ∧
        ra.previousVersion = rb.ipfsHash ∧ ra.previousVersion ≠ "" := by
  refine ⟨⟨"g", "pdf", "f", "t", "r", 12, 3, true, "h"⟩, by decide,
          ⟨"h", "pdf", "f", "t", "r", 10, 3, true, ""⟩, by decide,
          rfl, rfl, rfl, by decide⟩

/-! ## Claim C2 -/

/-- Claim C2 (violation witness): starting from `c2Setup`, where no
record with hash "missing" exists for patient 1 (or anyone), the call
`addMedicalRecord(1, "h2", …, previousVersion := "missing")` does not
fail with any previous-version-not-found error: it succeeds, and—because
the absent key reads as index 0 from the global `recordIndexes`
mapping—silently deactivates patient 1's unrelated record "h0". -/
theorem c2_missing_prev_not_detected :
    (∀ r, r ∈ (pmExec (pmInit 0) c2Setup).patientRecords 1 → r.ipfsHash ≠ "missing") ∧
    (addMedicalRecordSeq 3 11 1 "h2" "pdf" "f" "t" "r" "missing"
        (pmExec (pmInit 0) c2Setup)).1 = none ∧
    (addMedicalRecordSeq 3 11 1 "h2" "pdf" "f" "t" "r" "missing"
        (pmExec (pmInit 0) c2Setup)).2.patientRecords 1 =
      [⟨"h0", "pdf", "f", "t", "r", 10, 3, false, ""⟩,
       ⟨"h2", "pdf", "f", "t", "r", 11, 3, true, "missing"⟩] := by
  refine ⟨by decide, rfl, by decide⟩

/-! ## Claim C3 -/

/-- Claim C3 (counterexample): with the grant (0, 2) absent, a revoke
call by caller 1 ≠ patient 2 fails with the `NotGranted` conflict error,
not with the `AuthorizationError` the claim promises for every grant
state. -/
theorem c3_counterexample :
    (1 : Address) ≠ 2 ∧
    isAuthorized (dmInit 0) 0 2 = false ∧
    (revokePatientAccessSeq 1 0 2 (dmInit 0)).1 = some .accessNotGranted ∧
    (revokePatientAccessSeq 1 0 2 (dmInit 0)).1 ≠ some .onlyPatientCanRevoke := by
  refine ⟨by decide, rfl, rfl, by decide⟩

/-- Claim C3 (amended): a revoke call whose caller differs from the
patient never succeeds, in any state of the grant graph.  Its error is
fully determined by the two guards that run before the caller-identity
check: when the doctor is unregistered it fails with
`DoctorNotRegistered`; when the doctor is registered but the grant is
absent it fails with `NotGranted`; and when the doctor is registered and
the grant exists it fails with the authorization error "Only patient can
revoke access" — so the authorization error occurs exactly in that last
case. -/
theorem c3_revoke_nonpatient_always_fails (s : DMState) (c d p : Address)
    (hcp : c ≠ p) :
    ((s.doctors d).isRegistered = false →
      (revokePatientAccessSeq c d p s).1 = some .doctorNotRegistered) ∧
    ((s.doctors d).isRegistered = true → s.doctorPatientAccess d p = false →
      (revokePatientAccessSeq c d p s).1 = some .accessNotGranted) ∧
    ((s.doctors d).isRegistered = true → s.doctorPatientAccess d p = true →
      (revokePatientAccessSeq c d p s).1 = some .onlyPatientCanRevoke) ∧
    (revokePatientAccessSeq c d p s).1 ≠ none := by
  unfold revokePatientAccessSeq
  by_cases h1 : (s.doctors d).isRegistered = false
  · rw [if_pos h1]
    refine ⟨fun _ => rfl, fun h _ => ?_, fun h _ => ?_, by simp⟩
    · rw [h] at h1
      exact absurd h1 (by simp)
    · rw [h] at h1
      exact absurd h1 (by simp)
  · rw [if_neg h1]
    by_cases h2 : s.doctorPatientAccess d p = false
    · rw [if_pos h2]
      refine ⟨fun h => absurd h h1, fun _ _ => rfl, fun _ h => ?_, by simp⟩
      rw [h] at h2
      exact absurd h2 (by simp)
    · rw [if_neg h2, if_pos hcp]
      exact ⟨fun h => absurd h h1, fun _ h => absurd h h2, fun _ _ => rfl, by simp⟩

/-- Concrete instances of `c3_revoke_nonpatient_always_fails`, one per
error branch: caller 1 ≠ patient 2 gets `DoctorNotRegistered` for the
unregistered doctor 5, `NotGranted` for the registered doctor 0 with no
grant, and the authorization error once the grant (0, 2) exists. -/
theorem c3_revoke_nonpatient_witness :
    (revokePatientAccessSeq 1 5 2 (dmInit 0)).1 = some .doctorNotRegistered ∧
    (revokePatientAccessSeq 1 0 2 (dmInit 0)).1 = some .accessNotGranted ∧
    (revokePatientAccessSeq 1 0 2 (dmExec (dmInit 0) [.grant 0 2])).1 =
      some .onlyPatientCanRevoke := by
  refine ⟨?_, ?_, ?_⟩
  · exact (c3_revoke_nonpatient_always_fails (dmInit 0) 1 5 2 (by decide)).1 rfl
  · exact (c3_revoke_nonpatient_always_fails (dmInit 0) 1 0 2 (by decide)).2.1 rfl rfl
  · exact (c3_revoke_nonpatient_always_fails (dmExec (dmInit 0) [.grant 0 2]) 1 0 2
      (by decide)).2.2.1 rfl rfl

/-! ## Claim C6 -/

theorem registerDoctorSeq_atomic (sender d : Address) (u r : String)
    (s : DMState) (e : Err) (h : (registerDoctorSeq sender d u r s).1 = some e) :
    (registerDoctorSeq sender d u r s).2 = s := by
  unfold registerDoctorSeq at h ⊢
  by_cases h1 : sender ≠ s.admin
  · rw [if_pos h1]
  · rw [if_neg h1] at h ⊢
    by_cases h2 : (s.doctors d).isRegistered
    · rw [if_pos h2]
    · rw [if_neg h2] at h
      simp at h

theorem registerPatientSeq_atomic (sender p : Address) (u r : String)
    (s : PMState) (e : Err) (h : (registerPatientSeq sender p u r s).1 = some e) :
    (registerPatientSeq sender p u r s).2 = s := by
  unfold registerPatientSeq at h ⊢
  by_cases h1 : sender ≠ s.admin
  · rw [if_pos h1]
  · rw [if_neg h1] at h ⊢
    by_cases h2 : (s.patients p).isRegistered
    · rw [if_pos h2]
    · rw [if_neg h2] at h
      simp at h

theorem addPatientAccessSeq_atomic (d p : Address) (s : DMState) (e : Err)
    (h : (addPatientAccessSeq d p s).1 = some e) :
    (addPatientAccessSeq d p s).2 = s := by
  unfold addPatientAccessSeq at h ⊢
  by_cases h1 : (s.doctors d).isRegistered = false
  · rw [if_pos h1]
  · rw [if_neg h1] at h ⊢
    by_cases h2 : s.doctorPatientAccess d p
    · rw [if_pos h2]
    · rw [if_neg h2] at h
      simp at h

theorem revokePatientAccessSeq_atomic (sender d p : Address) (s : DMState)
    (e : Err) (h : (revokePatientAccessSeq sender d p s).1 = some e) :
    (revokePatientAccessSeq sender d p s).2 = s := by
  unfold revokePatientAccessSeq at h ⊢
  by_cases h1 : (s.doctors d).isRegistered = false
  · rw [if_pos h1]
  · rw [if_neg h1] at h ⊢
    by_cases h2 : s.doctorPatientAccess d p = false
    · rw [if_pos h2]
    · rw [if_neg h2] at h ⊢
      by_cases h3 : sender ≠ p
      · rw [if_pos h3]
      · rw [if_neg h3] at h
        simp at h

theorem deactivatePrev_atomic (p : Address) (prev : String) (s : PMState)
    (e : Err) (h : (deactivatePrev p prev s).1 = some e) :
    (deactivatePrev p prev s).2 = s := by
  unfold deactivatePrev at h ⊢
  cases hres : (s.patientRecords p)[s.recordIndexes prev]? with
  | some r => simp [hres] at h
  | none => simp [hres]

theorem addMedicalRecordSeq_atomic (sender : Address) (now : Nat) (p : Address)
    (hash ft fn t rsm prev : String) (s : PMState) (e : Err)
    (h : (addMedicalRecordSeq sender now p hash ft fn t rsm prev s).1 = some e) :
    (addMedicalRecordSeq sender now p hash ft fn t rsm prev s).2 = s := by
  unfold addMedicalRecordSeq at h ⊢
  by_cases h1 : (s.patients p).isRegistered = false
  · rw [if_pos h1]
  · rw [if_neg h1] at h ⊢
    rcases hcase : (if 0 < prev.length then deactivatePrev p prev s else (none, s))
      with ⟨e1, s1⟩
    rw [hcase] at h
    cases e1 with
    | none => exact Option.noConfusion h
    | some e2 =>
        show s1 = s
        by_cases hl : 0 < prev.length
        · rw [if_pos hl] at hcase
          have h2 : (deactivatePrev p prev s).2 = s1 := congrArg Prod.snd hcase
          have h1' : (deactivatePrev p prev s).1 = some e2 := congrArg Prod.fst hcase
          rw [← h2]
          exact deactivatePrev_atomic p prev s e2 h1'
        · rw [if_neg hl] at hcase
          exact (congrArg Prod.snd hcase).symm

/-- Claim C6: atomicity on error.  Every mutating operation of the three
contracts, modelled sequentially (mutations applied in source order, an
error aborting with whatever state had been built up to that point),
returns the unchanged input state whenever it reports an error: all
validation precedes all mutation.  The audit append has no error path at
all. -/
theorem c6_atomicity_on_error (sd : DMState) (sp : PMState) (sa : AuditState)
    (sender d p q actor subject : Address) (u r : String) (now : Nat)
    (hash ft fn t rsm prev aty det : String) (e : Err) :
    ((registerDoctorSeq sender d u r sd).1 = some e →
      (registerDoctorSeq sender d u r sd).2 = sd) ∧
    ((registerPatientSeq sender p u r sp).1 = some e →
      (registerPatientSeq sender p u r sp).2 = sp) ∧
    ((addPatientAccessSeq d q sd).1 = some e →
      (addPatientAccessSeq d q sd).2 = sd) ∧
    ((revokePatientAccessSeq sender d q sd).1 = some e →
      (revokePatientAccessSeq sender d q sd).2 = sd) ∧
    ((addMedicalRecordSeq sender now p hash ft fn t rsm prev sp).1 = some e →
      (addMedicalRecordSeq sender now p hash ft fn t rsm prev sp).2 = sp) ∧
    (addAuditLogSeq now actor aty subject det sa).1 = none := by
  exact ⟨registerDoctorSeq_atomic sender d u r sd e,
         registerPatientSeq_atomic sender p u r sp e,
         addPatientAccessSeq_atomic d q sd e,
         revokePatientAccessSeq_atomic sender d q sd e,
         addMedicalRecordSeq_atomic sender now p hash ft fn t rsm prev sp e,
         rfl⟩

/-- Concrete instances of `c6_atomicity_on_error`: a register call by a
non-admin, a revoke of an absent grant, and a versioning call whose
previous-version index is out of range each leave the state exactly as
it was. -/
theorem c6_atomicity_witness :
    (registerDoctorSeq 5 1 "u" "r" (dmInit 0)).2 = dmInit 0 ∧
    (registerPatientSeq 5 1 "u" "r" (pmInit 0)).2 = pmInit 0 ∧
    (addPatientAccessSeq 9 1 (dmInit 0)).2 = dmInit 0 ∧
    (revokePatientAccessSeq 1 0 2 (dmInit 0)).2 = dmInit 0 ∧
    (addMedicalRecordSeq 3 5 0 "h" "a" "b" "c" "d" "zz" (pmInit 0)).2 = pmInit 0 := by
  refine ⟨(c6_atomicity_on_error (dmInit 0) (pmInit 0) (auditInit 0) 5 1 0 1 0 0 "u" "r" 5
      "h" "a" "b" "c" "d" "zz" "x" "y" Err.onlyAdmin).1 rfl,
    (c6_atomicity_on_error (dmInit 0) (pmInit 0) (auditInit 0) 5 1 1 1 0 0 "u" "r" 5
      "h" "a" "b" "c" "d" "zz" "x" "y" Err.onlyAdmin).2.1 rfl,
    (c6_atomicity_on_error (dmInit 0) (pmInit 0) (auditInit 0) 5 9 1 1 0 0 "u" "r" 5
      "h" "a" "b" "c" "d" "zz" "x" "y" Err.doctorNotRegistered).2.2.1 rfl,
    (c6_atomicity_on_error (dmInit 0) (pmInit 0) (auditInit 0) 1 0 1 2 0 0 "u" "r" 5
      "h" "a" "b" "c" "d" "zz" "x" "y" Err.accessNotGranted).2.2.2.1 rfl,
    (c6_atomicity_on_error (dmInit 0) (pmInit 0) (auditInit 0) 3 0 0 1 0 0 "u" "r" 5
      "h" "a" "b" "c" "d" "zz" "x" "y" Err.indexOutOfBounds).2.2.2.2.1 rfl⟩

/-! ## Claim C7 -/

theorem collectActive_append (l1 l2 : List MedicalRecord) :
    collectActive (l1 ++ l2) = collectActive l1 ++ collectActive l2 := by
  induction l1 with
  | nil => rfl
  | cons r rs ih =>
      by_cases h : r.isActive
      · simp [collectActive, h, ih]
      · simp [collectActive, h, ih]

/-- Claim C7: `addMedicalRecord` performs no access-grant check.  For
every state, every registered patient `p` and every caller — the
contract never consults any grant data, which does not even exist in
PatientManagement — an add with empty `previousVersion` succeeds, stores
the caller as the record's doctor, and the new record appears in
`getActiveRecords p`. -/
theorem c7_addRecord_no_grant_check (s : PMState) (sender : Address) (now : Nat)
    (p : Address) (hash ft fn t rsm : String)
    (hreg : (s.patients p).isRegistered = true) :
    (addMedicalRecordSeq sender now p hash ft fn t rsm "" s).1 = none ∧
    ∃ l, getActiveRecords ((addMedicalRecordSeq sender now p hash ft fn t rsm "" s).2) p =
        .ok l ∧
      (⟨hash, ft, fn, t, rsm, now, sender, true, ""⟩ : MedicalRecord) ∈ l := by
  have hni : ¬((s.patients p).isRegistered = false) := by rw [hreg]; simp
  have hlen : ¬(0 < ("" : String).length) := by decide
  constructor
  · unfold addMedicalRecordSeq
    rw [if_neg hni, if_neg hlen]
  · unfold addMedicalRecordSeq
    rw [if_neg hni, if_neg hlen]
    show ∃ l, getActiveRecords (pushRecord sender now p hash ft fn t rsm "" s) p = .ok l ∧ _
    refine ⟨collectActive (s.patientRecords p ++
      [⟨hash, ft, fn, t, rsm, now, sender, true, ""⟩]), ?_, ?_⟩
    · have hreg2 : ((pushRecord sender now p hash ft fn t rsm "" s).patients p).isRegistered
          = true := hreg
      unfold getActiveRecords
      rw [if_pos hreg2]
      unfold pushRecord
      simp [upd]
    · rw [collectActive_append]
      simp [collectActive]

/-- Concrete instance of `c7_addRecord_no_grant_check`: in the freshly
deployed contract, caller 5 (who holds no grant of any kind) adds a
record for the registered patient 0 and the record shows up active. -/
theorem c7_witness :
    (addMedicalRecordSeq 5 7 0 "Qm1" "pdf" "f.pdf" "Blood Test" "desc" "" (pmInit 0)).1
        = none ∧
    ∃ l, getActiveRecords
        ((addMedicalRecordSeq 5 7 0 "Qm1" "pdf" "f.pdf" "Blood Test" "desc" "" (pmInit 0)).2) 0
        = .ok l ∧
      (⟨"Qm1", "pdf", "f.pdf", "Blood Test", "desc", 7, 5, true, ""⟩ : MedicalRecord) ∈ l := by
  exact c7_addRecord_no_grant_check (pmInit 0) 5 7 0 "Qm1" "pdf" "f.pdf" "Blood Test" "desc"
    (by decide)

/-! ## Claim C8 -/

theorem collectByActor_eq_filter (l : List AuditRecord) (a : Address) :
    collectByActor l a = l.filter (fun r => r.actor == a) := by
  induction l with
  | nil => rfl
  | cons r rs ih =>
      by_cases h : r.actor = a
      · simp [collectByActor, List.filter_cons, h, ih]
      · simp [collectByActor, List.filter_cons, h, ih]

theorem collectBySubject_eq_filter (l : List AuditRecord) (b : Address) :
    collectBySubject l b = l.filter (fun r => r.subject == b) := by
  induction l with
  | nil => rfl
  | cons r rs ih =>
      by_cases h : r.subject = b
      · simp [collectBySubject, List.filter_cons, h, ih]
      · simp [collectBySubject, List.filter_cons, h, ih]

theorem auditExec_trail (calls : List AuditCall) :
    ∀ s : AuditState, (auditExec s calls).auditTrail =
      s.auditTrail ++ calls.map (fun c => ⟨c.actor, c.actionType, c.subject, c.details, c.now⟩) := by
  induction calls with
  | nil => intro s; simp [auditExec]
  | cons c cs ih =>
      intro s
      rw [auditExec, ih]
      simp [addAuditLogSeq]

/-- Claim C8: after any sequence of `addAuditLog` calls the audit trail
is exactly the calls' records in insertion order, and the by-actor and
by-subject queries return exactly the order-preserving filter of the
trail; when nothing matches they return the empty list rather than an
error. -/
theorem c8_audit_filtering (deployer : Address) (calls : List AuditCall) (a b : Address) :
    (auditExec (auditInit deployer) calls).auditTrail =
      calls.map (fun c => ⟨c.actor, c.actionType, c.subject, c.details, c.now⟩) ∧
    getAuditTrailByActor (auditExec (auditInit deployer) calls) a =
      (auditExec (auditInit deployer) calls).auditTrail.filter (fun r => r.actor == a) ∧
    getAuditTrailBySubject (auditExec (auditInit deployer) calls) b =
      (auditExec (auditInit deployer) calls).auditTrail.filter (fun r => r.subject == b) ∧
    ((∀ r, r ∈ (auditExec (auditInit deployer) calls).auditTrail → r.actor ≠ a) →
      getAuditTrailByActor (auditExec (auditInit deployer) calls) a = []) := by
  refine ⟨?_, collectByActor_eq_filter _ a, collectBySubject_eq_filter _ b, ?_⟩
  · rw [auditExec_trail]
    simp [auditInit]
  · intro hnone
    rw [getAuditTrailByActor, collectByActor_eq_filter]
    rw [List.filter_eq_nil_iff]
    intro r hr
    simpa using hnone r hr

/-- Concrete instance of `c8_audit_filtering`, the spec's example: after
appends for actors 1, 1, 2, the by-actor query for 1 returns exactly the
two actor-1 entries in insertion order and the query for 3 returns the
empty list. -/
theorem c8_witness :
    getAuditTrailByActor (auditExec (auditInit 0)
        [⟨10, 1, "A", 7, "x"⟩, ⟨11, 1, "B", 8, "y"⟩, ⟨12, 2, "C", 9, "z"⟩]) 1 =
      [⟨1, "A", 7, "x", 10⟩, ⟨1, "B", 8, "y", 11⟩] ∧
    getAuditTrailByActor (auditExec (auditInit 0)
        [⟨10, 1, "A", 7, "x"⟩, ⟨11, 1, "B", 8, "y"⟩, ⟨12, 2, "C", 9, "z"⟩]) 3 = [] := by
  constructor
  · rw [(c8_audit_filtering 0
      [⟨10, 1, "A", 7, "x"⟩, ⟨11, 1, "B", 8, "y"⟩, ⟨12, 2, "C", 9, "z"⟩] 1 1).2.1]
    decide
  · exact (c8_audit_filtering 0
      [⟨10, 1, "A", 7, "x"⟩, ⟨11, 1, "B", 8, "y"⟩, ⟨12, 2, "C", 9, "z"⟩] 3 3).2.2.2
      (by decide)

/-! ## Claim C9 -/

/-- Claim C9: the record-store reads require the patient to be
registered and fail with the not-registered error otherwise, while the
access-graph reads are total: on the freshly deployed contract (where no
grant key exists) `isAuthorized` returns `false` and
`getAuthorizedPatients` returns the empty list, never an error. -/
theorem c9_read_asymmetry (s : PMState) (p deployer d q : Address)
    (h : (s.patients p).isRegistered = false) :
    getMedicalRecords s p = .error .patientNotRegistered ∧
    getActiveRecords s p = .error .patientNotRegistered ∧
    isAuthorized (dmInit deployer) d q = false ∧
    getAuthorizedPatients (dmInit deployer) d = [] := by
  refine ⟨?_, ?_, rfl, rfl⟩
  · unfold getMedicalRecords
    rw [if_neg (by rw [h]; simp)]
  · unfold getActiveRecords
    rw [if_neg (by rw [h]; simp)]

/-- Concrete instance of `c9_read_asymmetry` at the unregistered
address 1 of a fresh deployment. -/
theorem c9_witness :
    getMedicalRecords (pmInit 0) 1 = .error .patientNotRegistered ∧
    getActiveRecords (pmInit 0) 1 = .error .patientNotRegistered ∧
    isAuthorized (dmInit 0) 1 2 = false ∧
    getAuthorizedPatients (dmInit 0) 1 = [] := by
  exact c9_read_asymmetry (pmInit 0) 1 0 1 2 (by decide)

/-! ## Claim C4 -/

theorem addPatientAccessSeq_ok (d p : Address) (s s1 : DMState)
    (h : addPatientAccessSeq d p s = (none, s1)) :
    s1 = { s with
      doctorPatients := upd s.doctorPatients d (s.doctorPatients d ++ [p]),
      doctorPatientAccess := upd2 s.doctorPatientAccess d p true } := by
  unfold addPatientAccessSeq at h
  by_cases h1 : (s.doctors d).isRegistered = false
  · rw [if_pos h1] at h
    exact Option.noConfusion (congrArg Prod.fst h)
  · rw [if_neg h1] at h
    by_cases h2 : s.doctorPatientAccess d p
    · rw [if_pos h2] at h
      exact Option.noConfusion (congrArg Prod.fst h)
    · rw [if_neg h2] at h
      exact (congrArg Prod.snd h).symm

theorem revokePatientAccessSeq_ok (c d p : Address) (s s1 : DMState)
    (h : revokePatientAccessSeq c d p s = (none, s1)) :
    s1 = { s with
      doctorPatientAccess := upd2 s.doctorPatientAccess d p false,
      doctorPatients := upd s.doctorPatients d (removeBySwap (s.doctorPatients d) p) } := by
  unfold revokePatientAccessSeq at h
  by_cases h1 : (s.doctors d).isRegistered = false
  · rw [if_pos h1] at h
    exact Option.noConfusion (congrArg Prod.fst h)
  · rw [if_neg h1] at h
    by_cases h2 : s.doctorPatientAccess d p = false
    · rw [if_pos h2] at h
      exact Option.noConfusion (congrArg Prod.fst h)
    · rw [if_neg h2] at h
      by_cases h3 : c ≠ p
      · rw [if_pos h3] at h
        exact Option.noConfusion (congrArg Prod.fst h)
      · rw [if_neg h3] at h
        exact (congrArg Prod.snd h).symm

/-- Claim C4: in every reachable DoctorManagement state the
`doctorPatientAccess` flag is `true` exactly when the patient appears in
the doctor's grant list; a successful grant leaves `isAuthorized` true
and the patient in `getAuthorizedPatients`; a successful revoke by the
patient leaves `isAuthorized` false and the patient absent from
`getAuthorizedPatients`. -/
theorem c4_grant_revoke_duality (deployer : Address) (ops : List DMOp) :
    (∀ d p, (dmExec (dmInit deployer) ops).doctorPatientAccess d p = true ↔
        p ∈ (dmExec (dmInit deployer) ops).doctorPatients d) ∧
    (∀ d p s1, addPatientAccessSeq d p (dmExec (dmInit deployer) ops) = (none, s1) →
        isAuthorized s1 d p = true ∧ p ∈ getAuthorizedPatients s1 d) ∧
    (∀ c d p s1, c = p →
        revokePatientAccessSeq c d p (dmExec (dmInit deployer) ops) = (none, s1) →
        isAuthorized s1 d p = false ∧ p ∉ getAuthorizedPatients s1 d) := by
  have hinv := dmExec_inv deployer ops
  refine ⟨fun d p => (hinv d).2 p, ?_, ?_⟩
  · intro d p s1 h
    rw [addPatientAccessSeq_ok d p _ s1 h]
    constructor
    · simp [isAuthorized, upd2]
    · simp [getAuthorizedPatients, upd]
  · intro c d p s1 hcp h
    rw [revokePatientAccessSeq_ok c d p _ s1 h]
    constructor
    · simp [isAuthorized, upd2]
    · simp only [getAuthorizedPatients, upd, eq_self_iff_true, if_true]
      rw [mem_removeBySwap (hinv d).1]
      simp

/-- Concrete instance of `c4_grant_revoke_duality`: granting (0, 1) on
the fresh contract authorizes patient 1, and patient 1's own revoke in
the granted state de-authorizes and removes them. -/
theorem c4_witness :
    (isAuthorized (addPatientAccessSeq 0 1 (dmInit 0)).2 0 1 = true ∧
      1 ∈ getAuthorizedPatients (addPatientAccessSeq 0 1 (dmInit 0)).2 0) ∧
    (isAuthorized (revokePatientAccessSeq 1 0 1 (dmExec (dmInit 0) [.grant 0 1])).2 0 1
        = false ∧
      1 ∉ getAuthorizedPatients (revokePatientAccessSeq 1 0 1
        (dmExec (dmInit 0) [.grant 0 1])).2 0) := by
  constructor
  · exact (c4_grant_revoke_duality 0 []).2.1 0 1 _ rfl
  · exact (c4_grant_revoke_duality 0 [.grant 0 1]).2.2 1 0 1 _ rfl rfl

/-! ## Claim C5 -/

theorem registerDoctorSeq_ok (sender d : Address) (u r : String) (s s1 : DMState)
    (h : registerDoctorSeq sender d u r s = (none, s1)) :
    s1.doctors d = ⟨u, r, true⟩ := by
  unfold registerDoctorSeq at h
  by_cases h1 : sender ≠ s.admin
  · rw [if_pos h1] at h
    exact Option.noConfusion (congrArg Prod.fst h)
  · rw [if_neg h1] at h
    by_cases h2 : (s.doctors d).isRegistered
    · rw [if_pos h2] at h
      exact Option.noConfusion (congrArg Prod.fst h)
    · rw [if_neg h2] at h
      have h3 : s1 = { s with doctors := upd s.doctors d ⟨u, r, true⟩,
                              doctorAddresses := s.doctorAddresses ++ [d] } :=
        (congrArg Prod.snd h).symm
      rw [h3]
      show upd s.doctors d ⟨u, r, true⟩ d = _
      simp [upd]

theorem registerPatientSeq_ok (sender p : Address) (u r : String) (s s1 : PMState)
    (h : registerPatientSeq sender p u r s = (none, s1)) :
    s1.patients p = ⟨u, r, true⟩ := by
  unfold registerPatientSeq at h
  by_cases h1 : sender ≠ s.admin
  · rw [if_pos h1] at h
    exact Option.noConfusion (congrArg Prod.fst h)
  · rw [if_neg h1] at h
    by_cases h2 : (s.patients p).isRegistered
    · rw [if_pos h2] at h
      exact Option.noConfusion (congrArg Prod.fst h)
    · rw [if_neg h2] at h
      have h3 : s1 = { s with patients := upd s.patients p ⟨u, r, true⟩ } :=
        (congrArg Prod.snd h).symm
      rw [h3]
      show upd s.patients p ⟨u, r, true⟩ p = _
      simp [upd]

/-- Claim C5: once an id has been registered with (n, r) — in either
registry — every later register call for the same id fails (with
`AlreadyRegistered` when the caller is the admin, the only caller that
gets past the admin check), and lookup still returns the original
(n, r), no matter what other operations run in between. -/
theorem c5_register_idempotence_of_failure
    (sd : DMState) (sp : PMState) (sender sender2 id : Address) (n r n2 r2 : String)
    (ops : List DMOp) (pops : List PMOp) (s1d : DMState) (s1p : PMState)
    (hd : registerDoctorSeq sender id n r sd = (none, s1d))
    (hp : registerPatientSeq sender id n r sp = (none, s1p)) :
    ((registerDoctorSeq sender2 id n2 r2 (dmExec s1d ops)).1 ≠ none ∧
      (sender2 = (dmExec s1d ops).admin →
        (registerDoctorSeq sender2 id n2 r2 (dmExec s1d ops)).1 =
          some .doctorAlreadyRegistered) ∧
      getDoctor (dmExec s1d ops) id = .ok (n, r)) ∧
    ((registerPatientSeq sender2 id n2 r2 (pmExec s1p pops)).1 ≠ none ∧
      (sender2 = (pmExec s1p pops).admin →
        (registerPatientSeq sender2 id n2 r2 (pmExec s1p pops)).1 =
          some .patientAlreadyRegistered) ∧
      getPatient (pmExec s1p pops) id = .ok (n, r)) := by
  have hdoc : s1d.doctors id = ⟨n, r, true⟩ := registerDoctorSeq_ok sender id n r sd s1d hd
  have hregd : (s1d.doctors id).isRegistered = true := by rw [hdoc]
  have hdoc2 : (dmExec s1d ops).doctors id = ⟨n, r, true⟩ :=
    (dmExec_doctors_persist ops s1d id hregd).trans hdoc
  have hpat : s1p.patients id = ⟨n, r, true⟩ := registerPatientSeq_ok sender id n r sp s1p hp
  have hregp : (s1p.patients id).isRegistered = true := by rw [hpat]
  have hpat2 : (pmExec s1p pops).patients id = ⟨n, r, true⟩ :=
    (pmExec_patients_persist pops s1p id hregp).trans hpat
  refine ⟨⟨?_, ?_, ?_⟩, ⟨?_, ?_, ?_⟩⟩
  · unfold registerDoctorSeq
    by_cases hs : sender2 ≠ (dmExec s1d ops).admin
    · rw [if_pos hs]; simp
    · rw [if_neg hs, if_pos (by rw [hdoc2])]; simp
  · intro heq
    unfold registerDoctorSeq
    rw [if_neg (by simp [heq]), if_pos (by rw [hdoc2])]
  · unfold getDoctor
    rw [if_pos (by rw [hdoc2])]
    simp [hdoc2]
  · unfold registerPatientSeq
    by_cases hs : sender2 ≠ (pmExec s1p pops).admin
    · rw [if_pos hs]; simp
    · rw [if_neg hs, if_pos (by rw [hpat2])]; simp
  · intro heq
    unfold registerPatientSeq
    rw [if_neg (by simp [heq]), if_pos (by rw [hpat2])]
  · unfold getPatient
    rw [if_pos (by rw [hpat2])]
    simp [hpat2]

/-- Concrete instance of `c5_register_idempotence_of_failure`: after the
admin registers id 1 as ("n", "r") in both registries, a second
registration of id 1 by the admin fails with the already-registered
error and lookups still return ("n", "r"). -/
theorem c5_witness :
    (registerDoctorSeq 0 1 "n2" "r2"
        (dmExec (registerDoctorSeq 0 1 "n" "r" (dmInit 0)).2 [])).1 =
      some .doctorAlreadyRegistered ∧
    getDoctor (dmExec (registerDoctorSeq 0 1 "n" "r" (dmInit 0)).2 []) 1 = .ok ("n", "r") ∧
    (registerPatientSeq 0 1 "n2" "r2"
        (pmExec (registerPatientSeq 0 1 "n" "r" (pmInit 0)).2 [])).1 =
      some .patientAlreadyRegistered ∧
    getPatient (pmExec (registerPatientSeq 0 1 "n" "r" (pmInit 0)).2 []) 1 = .ok ("n", "r") := by
  have h := c5_register_idempotence_of_failure (dmInit 0) (pmInit 0) 0 0 1 "n" "r" "n2" "r2"
    [] [] (registerDoctorSeq 0 1 "n" "r" (dmInit 0)).2
    (registerPatientSeq 0 1 "n" "r" (pmInit 0)).2 rfl rfl
  exact ⟨h.1.2.1 rfl, h.1.2.2, h.2.2.1 rfl, h.2.2.2⟩

/-! ## Claim C10 -/

/-- Claim C10: the deploying address is pre-registered in both
registries as ("admin", "admin") by the constructors alone; in every
reachable state a register call for that address by the admin fails with
`AlreadyRegistered`, its lookup succeeds with ("admin", "admin"), and a
register call by any other address fails the admin check, so only the
deployer can ever successfully register anyone. -/
theorem c10_deployer_preregistered (deployer c x : Address) (ops : List DMOp)
    (pops : List PMOp) (n r : String) (hc : c ≠ deployer) :
    (dmInit deployer).doctors deployer = ⟨"admin", "admin", true⟩ ∧
    (pmInit deployer).patients deployer = ⟨"admin", "admin", true⟩ ∧
    (registerDoctorSeq deployer deployer n r (dmExec (dmInit deployer) ops)).1 =
      some .doctorAlreadyRegistered ∧
    (registerPatientSeq deployer deployer n r (pmExec (pmInit deployer) pops)).1 =
      some .patientAlreadyRegistered ∧
    getDoctor (dmExec (dmInit deployer) ops) deployer = .ok ("admin", "admin") ∧
    getPatient (pmExec (pmInit deployer) pops) deployer = .ok ("admin", "admin") ∧
    (registerDoctorSeq c x n r (dmExec (dmInit deployer) ops)).1 = some .onlyAdmin ∧
    (registerPatientSeq c x n r (pmExec (pmInit deployer) pops)).1 = some .onlyAdmin := by
  have hinitd : (dmInit deployer).doctors deployer = ⟨"admin", "admin", true⟩ := by
    simp [dmInit, upd]
  have hinitp : (pmInit deployer).patients deployer = ⟨"admin", "admin", true⟩ := by
    simp [pmInit, upd]
  have hadmind : (dmExec (dmInit deployer) ops).admin = deployer :=
    dmExec_admin ops (dmInit deployer)
  have hadminp : (pmExec (pmInit deployer) pops).admin = deployer :=
    pmExec_admin pops (pmInit deployer)
  have hdocd : (dmExec (dmInit deployer) ops).doctors deployer = ⟨"admin", "admin", true⟩ :=
    (dmExec_doctors_persist ops (dmInit deployer) deployer (by rw [hinitd])).trans hinitd
  have hdocp : (pmExec (pmInit deployer) pops).patients deployer = ⟨"admin", "admin", true⟩ :=
    (pmExec_patients_persist pops (pmInit deployer) deployer (by rw [hinitp])).trans hinitp
  refine ⟨hinitd, hinitp, ?_, ?_, ?_, ?_, ?_, ?_⟩
  · unfold registerDoctorSeq
    rw [if_neg (by rw [hadmind]; simp), if_pos (by rw [hdocd])]
  · unfold registerPatientSeq
    rw [if_neg (by rw [hadminp]; simp), if_pos (by rw [hdocp])]
  · unfold getDoctor
    rw [if_pos (by rw [hdocd])]
    simp [hdocd]
  · unfold getPatient
    rw [if_pos (by rw [hdocp])]
    simp [hdocp]
  · unfold registerDoctorSeq
    rw [if_pos (by rw [hadmind]; exact hc)]
  · unfold registerPatientSeq
    rw [if_pos (by rw [hadminp]; exact hc)]

/-- Concrete instance of `c10_deployer_preregistered` for deployer 0 and
outsider caller 1. -/
theorem c10_witness :
    (registerDoctorSeq 0 0 "a" "b" (dmExec (dmInit 0) [])).1 =
      some .doctorAlreadyRegistered ∧
    getDoctor (dmExec (dmInit 0) []) 0 = .ok ("admin", "admin") ∧
    (registerDoctorSeq 1 2 "a" "b" (dmExec (dmInit 0) [])).1 = some .onlyAdmin ∧
    (registerPatientSeq 1 2 "a" "b" (pmExec (pmInit 0) [])).1 = some .onlyAdmin := by
  have h := c10_deployer_preregistered 0 1 2 [] [] "a" "b" (by decide)
  exact ⟨h.2.2.1, h.2.2.2.2.1, h.2.2.2.2.2.2.1, h.2.2.2.2.2.2.2⟩
